import Mathlib

set_option autoImplicit false

/-
Verification of the `template` engine (src/template.js) and the utility
functions it calls (util.String.tokenise, util.String.supplant,
util.String.toPath, util.Object.access, util.Object.pair,
util.Number.isNumeric, util.Array.isArrayLike, util.Function.curry,
util.Object.assign).

Modelling conventions:
* JavaScript strings are modelled as `List Char` (abbreviated `Str`).
* JavaScript numbers are modelled as integers (`Int`).  The numeric-string
  grammar of the model is the decimal-integer fragment of what JavaScript
  accepts (no fractional part, no exponent, no hex); none of the checked
  properties depends on non-integer numerics.
* JavaScript exceptions are modelled with `Except JErr`.  `JErr.rangeError`
  stands for call-stack exhaustion, which the render functions signal when
  their recursion fuel runs out; the canonical fuel used by `treeRender`
  makes that case unreachable.
* Each regular expression of the source is hand-translated into an explicit
  scanning/backtracking function, documented with the regex it embeds.
  Candidate lists enumerate the states a backtracking engine would try, in
  the engine's preference order (greedy = longest first, optional groups =
  present first, leftmost match = lowest start position first).
* `===` on two JavaScript objects is reference equality.  In this
  embedding structured values have no identity, so object-to-object
  strict comparison is modelled as false (distinct references); none of
  the checked claims exercises aliasing.
-/

abbrev Str := List Char

/-- The left brace character, written by code so that marker text can be
assembled without brace literals. -/
def chBraceL : Char := Char.ofNat 123

/-- The right brace character. -/
def chBraceR : Char := Char.ofNat 125

/-- The backslash character. -/
def chBackslash : Char := Char.ofNat 92

/-- The double-quote character. -/
def chDQuote : Char := Char.ofNat 34

/-- The single-quote character. -/
def chSQuote : Char := Char.ofNat 39

/-- The backtick character. -/
def chBQuote : Char := Char.ofNat 96

/-- JavaScript `\s` (the whitespace characters used by the markers; the
rarely used unicode space characters are not modelled). -/
def isSpaceJS (c : Char) : Bool :=
  c = ' ' || c = Char.ofNat 9 || c = Char.ofNat 10 || c = Char.ofNat 13 ||
  c = Char.ofNat 11 || c = Char.ofNat 12

/-- JavaScript `\w`. -/
def isWordJS (c : Char) : Bool :=
  c.isAlpha || c.isDigit || c = '_'

/-- JavaScript `\d`. -/
def isDigitJS (c : Char) : Bool := c.isDigit

/-- The character class `[<>!=]` of the `if`-marker operator. -/
def isOpChar (c : Char) : Bool :=
  c = '<' || c = '>' || c = '!' || c = '='

/-- The quote class of the decoder pattern, `["'`]`. -/
def isQuoteChar (c : Char) : Bool :=
  c = chDQuote || c = chSQuote || c = chBQuote

/-- JavaScript line terminators, the characters *not* matched by `.`. -/
def isLineTerm (c : Char) : Bool :=
  c = Char.ofNat 10 || c = Char.ofNat 13 ||
  c = Char.ofNat 0x2028 || c = Char.ofNat 0x2029

/-- A character may fill the one-character context group `(^|.|\r|\n)` of
the marker/placeholder patterns: any character except the two unicode line
separators (which `.` , `\r` and `\n` all fail to match). -/
def prefixOk (c : Char) : Bool :=
  !(c = Char.ofNat 0x2028 || c = Char.ofNat 0x2029)

/-- Decimal digits of a natural number (JavaScript number-to-string for the
integers of the model). -/
def natToStr (n : Nat) : Str := Nat.toDigits 10 n

/-- JavaScript number-to-string for the modelled (integer) numbers. -/
def intToStr (n : Int) : Str :=
  if n < 0 then '-' :: natToStr n.natAbs else natToStr n.natAbs

/-- Numeric value of a digit string. -/
def digitsVal (s : Str) : Nat :=
  s.foldl (fun a c => a * 10 + (c.toNat - 48)) 0

/-- Strip leading and trailing JavaScript whitespace. -/
def trimJS (s : Str) : Str :=
  ((s.dropWhile isSpaceJS).reverse.dropWhile isSpaceJS).reverse

/-- Parse a complete optional-sign decimal-integer string (the integer
fragment of JavaScript's string-to-number grammar). -/
def parseDecInt (s : Str) : Option Int :=
  match s with
  | '-' :: t => if t ≠ [] && t.all isDigitJS then some (-(digitsVal t : Int)) else none
  | '+' :: t => if t ≠ [] && t.all isDigitJS then some ((digitsVal t : Int)) else none
  | t => if t ≠ [] && t.all isDigitJS then some ((digitsVal t : Int)) else none

/-- `parseFloat`-style leading parse (integer fragment): skip leading
whitespace, then an optional sign and at least one digit; trailing
characters are ignored.  `none` models NaN. -/
def parseFloatLeading (s : Str) : Option Int :=
  let t := s.dropWhile isSpaceJS
  match t with
  | '-' :: u => if u.takeWhile isDigitJS ≠ [] then some (-(digitsVal (u.takeWhile isDigitJS) : Int)) else none
  | '+' :: u => if u.takeWhile isDigitJS ≠ [] then some ((digitsVal (u.takeWhile isDigitJS) : Int)) else none
  | u => if u.takeWhile isDigitJS ≠ [] then some ((digitsVal (u.takeWhile isDigitJS) : Int)) else none

/-- `Number(string)` (integer fragment): trimmed whole-string conversion,
the empty string converting to 0.  `none` models NaN. -/
def toNumberStr (s : Str) : Option Int :=
  let t := trimJS s
  if t = [] then some 0 else parseDecInt t

/-- `util.Number.isNumeric` on a string:
`!isNaN(parseFloat(value)) && isFinite(value)`. -/
def isNumericStr (s : Str) : Bool :=
  (parseFloatLeading s).isSome && (toNumberStr s).isSome

/-- A JavaScript value: the data contexts the engine renders against. -/
inductive JSVal where
  | undef
  | null
  | bool (b : Bool)
  | num (n : Int)
  | str (s : Str)
  | arr (xs : List JSVal)
  | obj (fields : List (Str × JSVal))

mutual

/-- Structural size of a value, used as recursion fuel. -/
def valSize : JSVal → Nat
  | .arr xs => 1 + valSizeList xs
  | .obj fs => 1 + valSizeFields fs
  | _ => 1

/-- Structural size of a value list. -/
def valSizeList : List JSVal → Nat
  | [] => 0
  | v :: vs => valSize v + valSizeList vs

/-- Structural size of a field list. -/
def valSizeFields : List (Str × JSVal) → Nat
  | [] => 0
  | f :: fs => valSize f.2 + valSizeFields fs

end

/-- `ToString` with explicit fuel (the fuel only bounds descent into array
elements; `jsToString` instantiates it adequately).  Arrays stringify as the
comma-join of their elements with null/undefined elements blank; plain
objects as `[object Object]`. -/
def jsToStringB : Nat → JSVal → Str
  | 0, _ => []
  | _ + 1, .undef => "undefined".data
  | _ + 1, .null => "null".data
  | _ + 1, .bool b => if b then "true".data else "false".data
  | _ + 1, .num n => intToStr n
  | _ + 1, .str s => s
  | fuel + 1, .arr xs =>
      List.intercalate [',']
        (xs.map (fun v => match v with
          | .undef => []
          | .null => []
          | w => jsToStringB fuel w))
  | _ + 1, .obj _ => "[object Object]".data

/-- `ToString` of a value. -/
def jsToString (v : JSVal) : Str := jsToStringB (valSize v) v

/-- `ToNumber` of a value (`none` models NaN). -/
def toNumberV (v : JSVal) : Option Int :=
  match v with
  | .undef => none
  | .null => some 0
  | .bool b => some (if b then 1 else 0)
  | .num n => some n
  | .str s => toNumberStr s
  | .arr _ => toNumberStr (jsToString v)
  | .obj _ => toNumberStr (jsToString v)

/-- `ToPrimitive` as used by the relational operators: arrays and objects
convert through `ToString`, the rest are already primitive. -/
def toPrimV (v : JSVal) : JSVal :=
  match v with
  | .arr _ => .str (jsToString v)
  | .obj _ => .str (jsToString v)
  | w => w

/-- Lexicographic (code-unit) string comparison, JavaScript `<` on two
strings. -/
def lexLtStr : Str → Str → Bool
  | [], [] => false
  | [], _ :: _ => true
  | _ :: _, [] => false
  | a :: x, b :: y =>
    if a.toNat < b.toNat then true
    else if b.toNat < a.toNat then false
    else lexLtStr x y

/-- The abstract relational comparison: both primitives strings compares
lexicographically, otherwise both convert to numbers; `none` models an NaN
outcome (which every relational operator turns into false). -/
def lessPrim (a b : JSVal) : Option Bool :=
  match toPrimV a, toPrimV b with
  | .str x, .str y => some (lexLtStr x y)
  | x, y =>
    match toNumberV x, toNumberV y with
    | some m, some n => some (decide (m < n))
    | _, _ => none

/-- JavaScript `<`. -/
def jsLt (a b : JSVal) : Bool := (lessPrim a b).getD false

/-- JavaScript `>`. -/
def jsGt (a b : JSVal) : Bool := (lessPrim b a).getD false

/-- JavaScript `<=`. -/
def jsLe (a b : JSVal) : Bool :=
  match lessPrim b a with
  | some r => !r
  | none => false

/-- JavaScript `>=`. -/
def jsGe (a b : JSVal) : Bool :=
  match lessPrim a b with
  | some r => !r
  | none => false

/-- JavaScript `===`.  Object/array operands compare by reference; the
embedding treats distinct occurrences of structured values as distinct
references, so those comparisons are false. -/
def strictEq (a b : JSVal) : Bool :=
  match a, b with
  | .undef, .undef => true
  | .null, .null => true
  | .bool x, .bool y => x = y
  | .num x, .num y => x = y
  | .str x, .str y => x = y
  | _, _ => false

/-- JavaScript truthiness, `!!data` (src/template.js line 48). -/
def truthy (v : JSVal) : Bool :=
  match v with
  | .undef => false
  | .null => false
  | .bool b => b
  | .num n => n ≠ 0
  | .str s => s ≠ []
  | .arr _ => true
  | .obj _ => true

/-- The `tests` table of src/template.js lines 19-55: the six comparison
functions keyed by operator text, the `truthy` fallback (which ignores its
second argument), and the `!=` / `==` aliases added on lines 54-55. -/
def testsLookup (op : Str) : Option (JSVal → JSVal → Bool) :=
  if op = "<".data then some jsLt
  else if op = ">".data then some jsGt
  else if op = "<=".data then some jsLe
  else if op = ">=".data then some jsGe
  else if op = "!==".data then some (fun a b => !(strictEq a b))
  else if op = "===".data then some strictEq
  else if op = "truthy".data then some (fun a _ => truthy a)
  else if op = "!=".data then some (fun a b => !(strictEq a b))
  else if op = "==".data then some strictEq
  else none

/-- Characters admitted by the first toPath alternative `[^.[\]]+`. -/
def notPathDelim (c : Char) : Bool :=
  !(c = '.' || c = '[' || c = ']')

/-- The bracketed-number alternative of the toPath pattern:
`\[(-?\d+(?:\.\d+)?)\]` applied just after the opening bracket.  Returns the
captured number text and the rest after the closing bracket. -/
def bracketNum (s : Str) : Option (Str × Str) :=
  let (sign, t) :=
    match s with
    | '-' :: t => ((['-'] : Str), t)
    | t => (([] : Str), t)
  let ds := t.takeWhile isDigitJS
  let t1 := t.dropWhile isDigitJS
  if ds = [] then none
  else
    match t1 with
    | ']' :: r => some (sign ++ ds, r)
    | '.' :: t2 =>
      let fs := t2.takeWhile isDigitJS
      if fs = [] then none
      else
        match t2.dropWhile isDigitJS with
        | ']' :: r => some (sign ++ ds ++ '.' :: fs, r)
        | _ => none
    | _ => none

/-- The lazily matched quoted-key body `((?:(?!\2)[^\\]|\\.)*?)\2\]` of the
toPath pattern, applied just after the opening quote: consume the shortest
run of units (a non-quote non-backslash character, or a backslash followed
by a non-line-terminator) that is followed by the closing quote and a
closing bracket.  Returns the raw body and the rest after `]`. -/
def lazyQuoted (q : Char) : Str → Option (Str × Str)
  | [] => none
  | c :: cs =>
    if c = q then
      match cs with
      | ']' :: r => some ([], r)
      | _ => none
    else if c = chBackslash then
      match cs with
      | d :: ds =>
        if isLineTerm d then none
        else (lazyQuoted q ds).map (fun u => (c :: d :: u.1, u.2))
      | [] => none
    else (lazyQuoted q cs).map (fun u => (c :: u.1, u.2))

/-- The unescaping `string.replace(/\\(\\)?/g, "$1")` applied to a quoted
toPath key: a doubled backslash collapses to one, a single backslash before
any other character is dropped. -/
def unescapePath : Str → Str
  | [] => []
  | [c] => if c = chBackslash then [] else [c]
  | c :: d :: ds =>
    if c = chBackslash then
      if d = chBackslash then d :: unescapePath ds else unescapePath (d :: ds)
    else c :: unescapePath (d :: ds)

/-- One step of the lookahead alternative: consume `.` or `[]`. -/
def dotOrEmptyBrackets (s : Str) : Option Str :=
  match s with
  | '.' :: r => some r
  | '[' :: ']' :: r => some r
  | _ => none

/-- The empty-match lookahead alternative of the toPath pattern,
`(?=(?:\.|\[\])(?:\.|\[\]|$))`. -/
def lookaheadA3 (s : Str) : Bool :=
  match dotOrEmptyBrackets s with
  | none => false
  | some r => r = [] || (dotOrEmptyBrackets r).isSome

/-- The repeated-match loop of `util.String.toPath` (src/README.md
`stringToPath`): at each position try, in order, the plain-run alternative,
the bracketed alternative (number first, then quoted), and the empty
lookahead (which pushes an empty key and advances one character, as a
zero-length global match does); on no match advance one character.  The
fuel exceeds the input length, so it never runs out. -/
def pathScanB : Nat → Str → List Str
  | 0, _ => []
  | _ + 1, [] => []
  | fuel + 1, c :: cs =>
    if notPathDelim c then
      ((c :: cs).takeWhile notPathDelim) :: pathScanB fuel ((c :: cs).dropWhile notPathDelim)
    else if c = '[' then
      match bracketNum cs with
      | some (numTxt, r) => numTxt :: pathScanB fuel r
      | none =>
        match cs with
        | q :: t =>
          if q = chDQuote || q = chSQuote then
            match lazyQuoted q t with
            | some (raw, r) => unescapePath raw :: pathScanB fuel r
            | none =>
              if lookaheadA3 (c :: cs) then [] :: pathScanB fuel cs
              else pathScanB fuel cs
          else
            if lookaheadA3 (c :: cs) then [] :: pathScanB fuel cs
            else pathScanB fuel cs
        | [] =>
          if lookaheadA3 (c :: cs) then [] :: pathScanB fuel cs
          else pathScanB fuel cs
    else
      if lookaheadA3 (c :: cs) then [] :: pathScanB fuel cs
      else pathScanB fuel cs

/-- `util.String.toPath`: the leading-dot test pushes an empty first key,
then the pattern is scanned over the whole string. -/
def stringToPath (p : Str) : List Str :=
  let base := pathScanB (p.length + 1) p
  match p with
  | '.' :: _ => [] :: base
  | _ => base

/-- Canonical array-index form of a property name (all digits, no leading
zero except `0` itself, below the array length bound). -/
def arrayIndexOf (key : Str) : Option Nat :=
  if key ≠ [] && key.all isDigitJS && (key = ['0'] || key.head? ≠ some '0')
      && digitsVal key < 4294967295 then
    some (digitsVal key)
  else none

/-- `Object.prototype.hasOwnProperty.call(object, property)` combined with
the property read `object[property]`: own fields of plain objects; `length`
and the element indices of arrays and strings; nothing on the other
primitives.  (Prototype-inherited properties are not modelled.) -/
def hasOwnGet (v : JSVal) (key : Str) : Option JSVal :=
  match v with
  | .obj fields => fields.lookup key
  | .arr xs =>
    if key = "length".data then some (.num (xs.length : Int))
    else
      match arrayIndexOf key with
      | some i => xs[i]?
      | none => none
  | .str s =>
    if key = "length".data then some (.num (s.length : Int))
    else
      match arrayIndexOf key with
      | some i => (s[i]?).map (fun ch => .str [ch])
      | none => none
  | _ => none

/-- The `every` walk of `util.Object.access`: at each key the walk
continues only when the current value owns the key and the read result is
not undefined; otherwise the overall result is undefined. -/
def walkPath : JSVal → List Str → JSVal
  | v, [] => v
  | v, k :: ks =>
    match hasOwnGet v k with
    | none => .undef
    | some w =>
      match w with
      | .undef => .undef
      | w => walkPath w ks

/-- `util.Object.access(object, path)`. -/
def access (v : JSVal) (path : Str) : JSVal :=
  walkPath v (stringToPath path)

/-- A full `${...}` placeholder at the start of the input, per the supplant
pattern `(\$\{(.*?)\})`: `${`, then the lazy `.` body (no right brace, no
line terminator), then `}`.  Returns the inner text and the rest. -/
def placeholderAt (s : Str) : Option (Str × Str) :=
  match s with
  | '$' :: c :: t =>
    if c = chBraceL then
      let inner := t.takeWhile (fun d => !(d = chBraceR || isLineTerm d))
      match t.dropWhile (fun d => !(d = chBraceR || isLineTerm d)) with
      | r0 :: r => if r0 = chBraceR then some (inner, r) else none
      | [] => none
    else none
  | _ => none

/-- Leftmost match of the supplant pattern `(^|.|\r|\n)(\$\{(.*?)\})` at
positions past the start: the context group holds the one character before
the placeholder.  Returns (text before the match, context character, inner
text, rest after the match). -/
def findPlaceholderTail : Str → Option (Str × Option Char × Str × Str)
  | [] => none
  | c :: cs =>
    if prefixOk c then
      match placeholderAt cs with
      | some (inner, rest) => some ([], some c, inner, rest)
      | none => (findPlaceholderTail cs).map (fun r => (c :: r.1, r.2.1, r.2.2.1, r.2.2.2))
    else (findPlaceholderTail cs).map (fun r => (c :: r.1, r.2.1, r.2.2.1, r.2.2.2))

/-- Leftmost match of the supplant pattern: at position 0 the context group
may match the empty `^` alternative. -/
def findPlaceholder (s : Str) : Option (Str × Option Char × Str × Str) :=
  match placeholderAt s with
  | some (inner, rest) => some ([], none, inner, rest)
  | none => findPlaceholderTail s

/-- The stringy test of the supplant handler: the resolved value is spliced
in only when it is a string or a number (numbers concatenate via
`ToString`). -/
def numStrValue (v : JSVal) : Option Str :=
  match v with
  | .str s => some s
  | .num n => some (intToStr n)
  | _ => none

/-- `util.String.supplant(string, replacements)` with explicit fuel: the
tokenise loop specialised to the placeholder pattern, each match converted
by the handler (an escaping backslash context emits the placeholder text
verbatim and drops the backslash; otherwise the context character is
re-emitted followed by the replacement or, when the resolved value is not
stringy, the untouched placeholder text). -/
def supplantB : Nat → Str → JSVal → Str
  | 0, s, _ => s
  | fuel + 1, s, data =>
    match findPlaceholder s with
    | none => s
    | some (pre, pc, inner, rest) =>
      let whole := '$' :: chBraceL :: (inner ++ [chBraceR])
      let ctxt := match pc with | some c => ([c] : Str) | none => []
      let piece :=
        if ctxt = [chBackslash] then whole
        else ctxt ++ ((numStrValue (access data inner)).getD whole)
      pre ++ piece ++ supplantB fuel rest data

/-- `util.String.supplant` at its canonical fuel (a placeholder consumes at
least three characters, so the input length suffices). -/
def supplant (s : Str) (data : JSVal) : Str :=
  supplantB (s.length + 1) s data

/-- A full control marker at the start of the input, per `BRANCH_PART`'s
core `\$\{#[^\}]+\}`: `${#`, at least one non-right-brace character, `}`.
Returns the marker text and the rest. -/
def markerAt (s : Str) : Option (Str × Str) :=
  match s with
  | a :: b :: c :: t =>
    if a = '$' && b = chBraceL && c = '#' then
      let body := t.takeWhile (fun d => !(d = chBraceR))
      match t.dropWhile (fun d => !(d = chBraceR)) with
      | r0 :: r =>
        if r0 = chBraceR && body ≠ [] then
          some (a :: b :: c :: (body ++ [chBraceR]), r)
        else none
      | [] => none
    else none
  | _ => none

/-- Leftmost match of `BRANCH_PART` = `(^|.|\r|\n)\$\{#[^\}]+\}` at
positions past the start (the context character is part of the match).
Returns (text before the match, match text, rest). -/
def findBranchPartTail : Str → Option (Str × Str × Str)
  | [] => none
  | c :: cs =>
    if prefixOk c then
      match markerAt cs with
      | some (m, rest) => some ([], c :: m, rest)
      | none => (findBranchPartTail cs).map (fun r => (c :: r.1, r.2.1, r.2.2))
    else (findBranchPartTail cs).map (fun r => (c :: r.1, r.2.1, r.2.2))

/-- Leftmost match of `BRANCH_PART`: at position 0 the context group may
match the empty `^` alternative. -/
def findBranchPart (s : Str) : Option (Str × Str × Str) :=
  match markerAt s with
  | some (m, rest) => some ([], m, rest)
  | none => findBranchPartTail s

/-- `util.String.tokenise(string, BRANCH_PART)` with the default handler
(which returns the whole match): repeatedly emit the text before the match
and the match itself; with no further match (or a zero-length one) the
remainder is a single trailing fragment.  The fuel exceeds the input
length, so it never runs out. -/
def tokeniseB : Nat → Str → List Str
  | 0, _ => []
  | fuel + 1, s =>
    if s = [] then []
    else
      match findBranchPart s with
      | none => [s]
      | some (pre, m, rest) =>
        if m = [] then [s]
        else pre :: m :: tokeniseB fuel rest

/-- `util.String.tokenise` at its canonical fuel. -/
def tokenise (s : Str) : List Str := tokeniseB (s.length + 1) s

/-- A decoded conditional operand: either an immediate value or a deferred
path lookup (the curried `util.Object.access` of src/template.js lines
136-140). -/
inductive Decoded where
  | val (v : JSVal)
  | deferred (path : Str)

/-- The two capture groups of the decoder pattern
`/^(["'`])?([\s\S]+)?\1$/`, which always matches: a leading quote
participates only when the token also ends with that quote (the body group
needs at least one character and is unmatched for a bare quote pair). -/
def quoteParts (v : Str) : Option Char × Option Str :=
  match v with
  | [] => (none, none)
  | c :: rest =>
    if isQuoteChar c then
      if rest ≠ [] && rest.getLast? = some c then
        if 2 ≤ rest.length then (some c, some rest.dropLast)
        else (some c, none)
      else (none, some (c :: rest))
    else (none, some (c :: rest))

/-- `decode(value)` of src/template.js lines 107-148: the keyword cases,
then the quote-stripping match, then the numeric test, then the deferred
path lookup. -/
def decode (v : Str) : Decoded :=
  if v = "null".data then .val .null
  else if v = "undefined".data then .val .undef
  else if v = "false".data then .val (.bool false)
  else if v = "true".data then .val (.bool true)
  else
    match quoteParts v with
    | (some _, inner) =>
      .val (match inner with
            | some s => .str s
            | none => .undef)
    | (none, _) =>
      if isNumericStr v then .val (.num ((toNumberStr v).getD 0))
      else .deferred v

/-- The splits a backtracking engine tries for a greedy `X+` run:
(matched, rest) with the matched run longest first, never empty. -/
def plusSplits (p : Char → Bool) (s : Str) : List (Str × Str) :=
  let m := (s.takeWhile p).length
  (List.range m).map (fun i => (s.take (m - i), s.drop (m - i)))

/-- The splits for a greedy `X*` run: longest first, down to empty. -/
def starSplits (p : Char → Bool) (s : Str) : List (Str × Str) :=
  let m := (s.takeWhile p).length
  (List.range (m + 1)).map (fun i => (s.take (m - i), s.drop (m - i)))

/-- The splits for the greedy bounded run `[<>!=]{1,3}`. -/
def opSplits (s : Str) : List (Str × Str) :=
  let m := min ((s.takeWhile isOpChar).length) 3
  (List.range m).map (fun i => (s.take (m - i), s.drop (m - i)))

/-- Literal-text match, returning the rest. -/
def stripLit : Str → Str → Option Str
  | [], s => some s
  | _ :: _, [] => none
  | c :: cs, d :: ds => if c = d then stripLit cs ds else none

/-- The candidates for the optional `(!)?` group, present first. -/
def bangCands (s : Str) : List (Bool × Str) :=
  match s with
  | '!' :: t => [(true, t), (false, '!' :: t)]
  | t => [(false, t)]

/-- The present-group candidates for the optional operand group
`(\s*([<>!=]{1,3})\s*([\S]+))?` of the `if`-marker pattern, in backtracking
order.  Each candidate carries the operator text, the operand text and the
rest. -/
def groupCands (s : Str) : List ((Str × Str) × Str) :=
  (starSplits isSpaceJS s).flatMap (fun a =>
    (opSplits a.2).flatMap (fun o =>
      (starSplits isSpaceJS o.2).flatMap (fun b =>
        (plusSplits (fun c => !isSpaceJS c) b.2).map (fun vv =>
          ((o.1, vv.1), vv.2)))))

/-- The `if`-marker pattern of `makeIfBranch` (src/template.js line 153),
`\${#if\s+(!)?([\S]+)(\s*([<>!=]{1,3})\s*([\S]+))?\}`, tried at the start
of the input.  Returns (negation, property path, test name, operand text),
with the fallbacks of lines 157-160 applied: a missing operator group
yields the `truthy` test and an empty operand. -/
def ifAt (s : Str) : Option (Bool × Str × Str × Str) :=
  match stripLit ('$' :: chBraceL :: '#' :: "if".data) s with
  | none => none
  | some t =>
    (plusSplits isSpaceJS t).findSome? (fun w1 =>
      (bangCands w1.2).findSome? (fun bc =>
        (plusSplits (fun c => !isSpaceJS c) bc.2).findSome? (fun pp =>
          (((groupCands pp.2).map (fun (g : (Str × Str) × Str) =>
              ((some g.1, g.2) : Option (Str × Str) × Str))) ++ [(none, pp.2)]).findSome?
            (fun (gc : Option (Str × Str) × Str) =>
              match gc.2 with
              | r0 :: _ =>
                if r0 = chBraceR then
                  some (bc.1, pp.1,
                        (match gc.1 with | some ov => ov.1 | none => "truthy".data),
                        (match gc.1 with | some ov => ov.2 | none => []))
                else none
              | [] => none))))

/-- Leftmost match of the (unanchored) `if`-marker pattern. -/
def ifScan : Str → Option (Bool × Str × Str × Str)
  | [] => none
  | c :: cs =>
    match ifAt (c :: cs) with
    | some r => some r
    | none => ifScan cs

/-- The present-group candidates for the optional key-binding group
`(\s([\w]+)\s+to)?` of the `each`-marker pattern: a single whitespace
character, a word, whitespace, the literal `to`. -/
def eachKeyCands (s : Str) : List (Str × Str) :=
  match s with
  | c :: t =>
    if isSpaceJS c then
      (plusSplits isWordJS t).flatMap (fun kk =>
        (plusSplits isSpaceJS kk.2).filterMap (fun w =>
          (stripLit "to".data w.2).map (fun r => (kk.1, r))))
    else []
  | [] => []

/-- The `each`-marker pattern of `makeEachBranch` (src/template.js line
217), `\$\{#each\s+([\w]+)\s+as(\s([\w]+)\s+to)?\s+([\w]+)\}`, tried at the
start of the input.  Returns (collection name, optional key binding, value
binding). -/
def eachAt (s : Str) : Option (Str × Option Str × Str) :=
  match stripLit ('$' :: chBraceL :: '#' :: "each".data) s with
  | none => none
  | some t =>
    (plusSplits isSpaceJS t).findSome? (fun w1 =>
      (plusSplits isWordJS w1.2).findSome? (fun dk =>
        (plusSplits isSpaceJS dk.2).findSome? (fun w2 =>
          match stripLit "as".data w2.2 with
          | none => none
          | some r4 =>
            (((eachKeyCands r4).map (fun (g : Str × Str) =>
                ((some g.1, g.2) : Option Str × Str))) ++ [(none, r4)]).findSome?
              (fun (kc : Option Str × Str) =>
                (plusSplits isSpaceJS kc.2).findSome? (fun (w3 : Str × Str) =>
                  (plusSplits isWordJS w3.2).findSome? (fun (iv : Str × Str) =>
                    match iv.2 with
                    | r0 :: _ => if r0 = chBraceR then some (dk.1, kc.1, iv.1) else none
                    | [] => none))))))

/-- Leftmost match of the (unanchored) `each`-marker pattern. -/
def eachScan : Str → Option (Str × Option Str × Str)
  | [] => none
  | c :: cs =>
    match eachAt (c :: cs) with
    | some r => some r
    | none => eachScan cs

/-- The marker body of `PROCESS_BRANCH` =
`(^|.|\r|\n)\$\{#(\w+)\s+([^\}]+)\}$` tried at the start of the input:
`${#`, a word (the kind), whitespace, the content, `}`, end of input.
Returns (kind, content, match text). -/
def processAt (s : Str) : Option (Str × Str × Str) :=
  match s with
  | a :: b :: c :: t =>
    if a = '$' && b = chBraceL && c = '#' then
      (plusSplits isWordJS t).findSome? (fun kd =>
        (plusSplits isSpaceJS kd.2).findSome? (fun w =>
          let content := w.2.takeWhile (fun d => !(d = chBraceR))
          match w.2.dropWhile (fun d => !(d = chBraceR)) with
          | [r0] =>
            if r0 = chBraceR && content ≠ [] then
              some (kd.1, content, a :: b :: c :: t)
            else none
          | _ => none))
    else none
  | _ => none

/-- Leftmost match of `PROCESS_BRANCH` at positions past the start: the
context group holds the one character before the marker.  Returns
(context text, kind, content, match text). -/
def processScanTail : Str → Option (Str × Str × Str × Str)
  | [] => none
  | c :: cs =>
    if prefixOk c then
      match processAt cs with
      | some (k, ct, m) => some ([c], k, ct, c :: m)
      | none => processScanTail cs
    else processScanTail cs

/-- `part.match(PROCESS_BRANCH)`: groups 1 (context), 2 (kind), 3
(content), and the whole match. -/
def processBranchMatch (s : Str) : Option (Str × Str × Str × Str) :=
  match processAt s with
  | some (k, ct, m) => some ([], k, ct, m)
  | none => processScanTail s

/-- `util.Number.isNumeric` on an arbitrary value (the source applies it to
`array.length`): `parseFloat` works on the `ToString` image, `isFinite` on
the `ToNumber` image. -/
def isNumericVal (v : JSVal) : Bool :=
  match v with
  | .num _ => true
  | .str s => isNumericStr s
  | .arr _ => isNumericStr (jsToString v)
  | _ => false

/-- The `length` property read `array.length` used by `isArrayLike`. -/
def lengthOf (v : JSVal) : JSVal :=
  (hasOwnGet v "length".data).getD JSVal.undef

/-- `util.Array.isArrayLike`: not null/undefined, and a true array or a
value whose `length` is numeric, at least 0 and below 2^32 - 1.  (The
`Symbol.iterator` clause is not modelled: of the modelled values only
strings carry it, and they already satisfy the length clause.) -/
def isArrayLike (v : JSVal) : Bool :=
  match v with
  | .undef => false
  | .null => false
  | .arr _ => true
  | _ =>
    let len := lengthOf v
    isNumericVal len && jsGe len (.num 0) && jsLt len (.num 4294967295)

/-- Enumerability rank of a property name: integer-like own keys enumerate
first, in ascending numeric order, then the remaining keys in insertion
order. -/
def keyIndexVal (k : Str) : Option Nat :=
  if k ≠ [] && k.all isDigitJS && (k = ['0'] || k.head? ≠ some '0')
      && digitsVal k < 4294967295 then
    some (digitsVal k)
  else none

/-- Ordered insertion for the integer-like keys. -/
def insertByVal : (Str × Nat) → List (Str × Nat) → List (Str × Nat)
  | kn, [] => [kn]
  | kn, x :: xs => if kn.2 < x.2 then kn :: x :: xs else x :: insertByVal kn xs

/-- `Object.keys` enumeration order on the modelled objects. -/
def jsKeys (fields : List (Str × JSVal)) : List Str :=
  let idx := fields.filterMap (fun f => (keyIndexVal f.1).map (fun n => (f.1, n)))
  let sorted := idx.foldl (fun acc kn => insertByVal kn acc) []
  sorted.map Prod.fst ++
    fields.filterMap (fun f => if (keyIndexVal f.1).isSome then none else some f.1)

/-- `util.Object.pair` on an object's fields: `Object.keys` order, each key
paired with its value. -/
def objectPairs (fields : List (Str × JSVal)) : List (JSVal × JSVal) :=
  (jsKeys fields).filterMap (fun k => (fields.lookup k).map (fun v => (JSVal.str k, v)))

/-- `ToLength` of a length value, for iterating a non-array array-like. -/
def toLengthNat (v : JSVal) : Nat :=
  match toNumberV v with
  | some n => n.toNat
  | none => 0

/-- The errors the engine can raise.  `rangeError` models call-stack
exhaustion (the fuel of the render recursion running out); it is
unreachable at the canonical fuel `treeRender` supplies. -/
inductive JErr where
  | typeError (msg : Str)
  | syntaxError (msg : Str)
  | rangeError
deriving DecidableEq

/-- `pair(object)` of src/template.js lines 199-212: array-likes are
mapped by `util.Array.map` into index/value pairs (missing indices of a
sparse array-like are holes, which the subsequent `forEach` skips), all
other values go through `util.Object.pair` — whose `Object.keys` call
throws a TypeError on null/undefined and returns no keys for the other
primitives. -/
def pairF (v : JSVal) : Except JErr (List (JSVal × JSVal)) :=
  if isArrayLike v then
    match v with
    | .arr xs => .ok (xs.enum.map (fun ix => (JSVal.num (ix.1 : Int), ix.2)))
    | .str s => .ok (s.enum.map (fun ic => (JSVal.num (ic.1 : Int), JSVal.str [ic.2])))
    | .obj fields =>
      .ok ((List.range (toLengthNat (lengthOf v))).filterMap (fun i =>
        (fields.lookup (natToStr i)).map (fun x => (JSVal.num (i : Int), x))))
    | _ => .ok []
  else
    match v with
    | .undef => .error (.typeError "Cannot convert undefined or null to object".data)
    | .null => .error (.typeError "Cannot convert undefined or null to object".data)
    | .obj fields => .ok (objectPairs fields)
    | _ => .ok []

/-- `util.Object.assign({}, data)`: a fresh object holding the own
enumerable properties of `data` in enumeration order (array and string
sources contribute their index properties; other primitives contribute
nothing). -/
def shallowCopy (v : JSVal) : JSVal :=
  match v with
  | .obj fields => .obj ((jsKeys fields).filterMap (fun k =>
      (fields.lookup k).map (fun x => (k, x))))
  | .arr xs => .obj (xs.enum.map (fun ix => (natToStr ix.1, ix.2)))
  | .str s => .obj (s.enum.map (fun ic => (natToStr ic.1, JSVal.str [ic.2])))
  | _ => .obj []

/-- Property assignment on an object: an existing key keeps its position,
a new key is appended. -/
def setField : List (Str × JSVal) → Str → JSVal → List (Str × JSVal)
  | [], k, x => [(k, x)]
  | f :: fs, k, x => if f.1 = k then (f.1, x) :: fs else f :: setField fs k x

/-- `branchData[key] = value` (the target is always the object produced by
`shallowCopy`; assignment to a non-object primitive would be a silent
no-op). -/
def setKey (v : JSVal) (k : Str) (x : JSVal) : JSVal :=
  match v with
  | .obj fields => .obj (setField fields k x)
  | w => w

/-- The per-iteration context of an `each` render: the value binding is
written first, then (when a key binding was named) the key binding, exactly
as on src/template.js lines 241-245.  Writing into a fresh copy per
iteration is observably equal to the source's single copy mutated per
iteration, because both bindings are (re)written before every child
render and nothing else writes to the copy. -/
def bindPair (base : JSVal) (ik : Option Str) (iv : Str) (pr : JSVal × JSVal) : JSVal :=
  let b1 := setKey base iv pr.2
  match ik with
  | some k => setKey b1 k pr.1
  | none => b1

/-- The raw indexing `data[dataKey]` of src/template.js line 233: a single
property read, not a path walk; reading off null/undefined throws. -/
def getIdx (v : JSVal) (key : Str) : Except JErr JSVal :=
  match v with
  | .undef => .error (.typeError "Cannot read properties of undefined".data)
  | .null => .error (.typeError "Cannot read properties of null".data)
  | .obj fields => .ok ((fields.lookup key).getD .undef)
  | .arr _ => .ok ((hasOwnGet v key).getD JSVal.undef)
  | .str _ => .ok ((hasOwnGet v key).getD JSVal.undef)
  | _ => .ok JSVal.undef

/-- A compiled branch: the text / if / each variants of src/template.js
(`base` exists only as the tree root, carried by `Frame.base`). -/
inductive Branch where
  | text (t : Str)
  | iff (neg : Bool) (path : Str) (test : Str) (value : Str) (children : List Branch)
  | each (dataKey : Str) (iterKey : Option Str) (iterVal : Str) (children : List Branch)

mutual

/-- Structural size of a branch, used as render fuel (it dominates the
nesting depth). -/
def branchSize : Branch → Nat
  | .text _ => 1
  | .iff _ _ _ _ cs => 1 + branchListSize cs
  | .each _ _ _ cs => 1 + branchListSize cs

/-- Structural size of a branch list. -/
def branchListSize : List Branch → Nat
  | [] => 1
  | b :: bs => 1 + branchSize b + branchListSize bs

end

/-- The condition evaluation of `makeIfBranch`'s render (src/template.js
lines 168-185): resolve the property path, decode the operand (invoking a
deferred decode against the same context), negate the property when the
marker carried `!`, and apply the selected test; with no applicable test
function the branch renders unconditionally. -/
def ifShould (neg : Bool) (path test value : Str) (data : JSVal) : Bool :=
  let property := access data path
  let operand :=
    match decode value with
    | .val v => v
    | .deferred p => access data p
  let subject := if neg then JSVal.bool (!(truthy property)) else property
  match testsLookup test with
  | some f => f subject operand
  | none => true

/-- Concatenating monadic render of a list (the `forEach` loops of the
source, with a thrown error aborting the whole render). -/
def concatM {α : Type} (f : α → Except JErr Str) : List α → Except JErr Str
  | [] => .ok []
  | a :: l =>
    match f a with
    | .error e => .error e
    | .ok s =>
      match concatM f l with
      | .error e => .error e
      | .ok t => .ok (s ++ t)

/-- One level of branch-list rendering, parametrised by the renderer used
for child lists: Text renders by supplant; If renders its children against
the same context when the condition holds, else contributes nothing; Each
reads its collection by single-key indexing, normalizes it to pairs, and
renders its children once per pair against the shallow-copied,
binding-augmented context. -/
def renderStep (recur : List Branch → JSVal → Except JErr Str)
    (bs : List Branch) (data : JSVal) : Except JErr Str :=
  concatM (fun b =>
    match b with
    | .text t => .ok (supplant t data)
    | .iff neg path test value cs =>
      if ifShould neg path test value data then recur cs data else .ok []
    | .each dk ik iv cs =>
      match getIdx data dk with
      | .error e => .error e
      | .ok coll =>
        match pairF coll with
        | .error e => .error e
        | .ok prs =>
          concatM (fun pr => recur cs (bindPair (shallowCopy data) ik iv pr)) prs) bs

/-- Branch-list rendering with explicit recursion fuel; the fuel bounds
only the nesting depth, and running out models call-stack exhaustion. -/
def renderListB : Nat → List Branch → JSVal → Except JErr Str
  | 0, _, _ => .error .rangeError
  | fuel + 1, bs, data => renderStep (fun cs d => renderListB fuel cs d) bs data

/-- A tree-builder frame: the branch being assembled at one nesting level.
The source keeps a current-branch pointer with parent back-references; a
pointer chain of part-built branches is exactly this stack, the root
`base` at the bottom. -/
inductive Frame where
  | base (children : List Branch)
  | ifF (neg : Bool) (path : Str) (test : Str) (value : Str) (children : List Branch)
  | eachF (dataKey : Str) (iterKey : Option Str) (iterVal : Str) (children : List Branch)

/-- The `type` string of the branch a frame is building. -/
def Frame.kindName : Frame → Str
  | .base _ => "base".data
  | .ifF _ _ _ _ _ => "if".data
  | .eachF _ _ _ _ => "each".data

/-- Append a finished child branch to a frame. -/
def Frame.addChild : Frame → Branch → Frame
  | .base cs, b => .base (cs ++ [b])
  | .ifF n p t v cs, b => .ifF n p t v (cs ++ [b])
  | .eachF dk ik iv cs, b => .eachF dk ik iv (cs ++ [b])

/-- The tree-builder state: the stack of open frames, current branch on
top.  An empty stack models the pointer having moved past the root (the
source's `undefined` parent). -/
abbrev TreeState := List Frame

/-- `tree.addBranch` of a finished branch (a text fragment): appended to
the current branch, whose pointer must exist. -/
def addBranchTo (st : TreeState) (b : Branch) : Except JErr TreeState :=
  match st with
  | [] => .error (.typeError "Cannot read properties of undefined".data)
  | f :: fs => .ok (f.addChild b :: fs)

/-- `tree.openBranch(type, content)` (src/template.js lines 303-316): an
unknown kind throws; `if`/`each` parse their marker out of the content
(a failed pattern match means `condition.match(...)` returned null and
dereferencing it throws); the `text` entry of the table constructs a
branch with no `setParent` method, so invoking it throws.  The new branch
becomes current; it is attached to its parent when closed, which yields
the same finished tree as the source's attach-on-open since nothing else
is appended to the parent while the child is open. -/
def openBranch (kind : Str) (content : Str) (st : TreeState) : Except JErr TreeState :=
  if kind = "each".data then
    match eachScan content with
    | none => .error (.typeError "Cannot read properties of null".data)
    | some (dk, ik, iv) =>
      match st with
      | [] => .error (.typeError "Cannot read properties of undefined".data)
      | _ => .ok (Frame.eachF dk ik iv [] :: st)
  else if kind = "text".data then
    .error (.typeError "newBranch.setParent is not a function".data)
  else if kind = "if".data then
    match ifScan content with
    | none => .error (.typeError "Cannot read properties of null".data)
    | some (neg, path, test, value) =>
      match st with
      | [] => .error (.typeError "Cannot read properties of undefined".data)
      | _ => .ok (Frame.ifF neg path test value [] :: st)
  else .error (.typeError ("Unknown branch type ".data ++ kind))

/-- `tree.closeBranch(type)` (src/template.js lines 318-332): the close
kind must equal the current branch's type, else a SyntaxError; on success
the pointer moves to the parent (the finished branch joining its parent's
children; closing the root base moves the pointer past the root). -/
def closeBranch (kind : Str) (st : TreeState) : Except JErr TreeState :=
  match st with
  | [] => .error (.typeError "Cannot read properties of undefined".data)
  | f :: fs =>
    if f.kindName ≠ kind then
      .error (.syntaxError ("Expecting type ".data ++ f.kindName ++ " but got ".data ++ kind))
    else
      match f, fs with
      | .base _, rest => .ok rest
      | .ifF n p t v cs, g :: gs => .ok (g.addChild (.iff n p t v cs) :: gs)
      | .eachF dk ik iv cs, g :: gs => .ok (g.addChild (.each dk ik iv cs) :: gs)
      | .ifF _ _ _ _ _, [] => .ok []
      | .eachF _ _ _ _, [] => .ok []

/-- One fragment of the `setup` loop (src/template.js lines 343-359): a
fragment matching `PROCESS_BRANCH` whose context character is not a
backslash closes (`end`) or opens a branch; everything else — plain text,
non-conforming markers, and backslash-escaped markers — is appended as a
text branch holding the whole fragment. -/
def processPart (st : TreeState) (part : Str) : Except JErr TreeState :=
  match processBranchMatch part with
  | some (ctxt, kind, content, whole) =>
    if ctxt ≠ [chBackslash] then
      if kind = "end".data then closeBranch content st
      else openBranch kind whole st
    else addBranchTo st (.text part)
  | none => addBranchTo st (.text part)

/-- `template(string)` up to the point where `render` can be called:
tokenise the source and feed every fragment to the tree builder, starting
from a fresh root base. -/
def templateCompile (source : Str) : Except JErr TreeState :=
  (tokenise source).foldlM processPart [Frame.base []]

/-- `tree.render(data)` (src/template.js lines 289-301): with the pointer
past the root reading its `type` throws; with the pointer on an open
non-base branch a SyntaxError names the still-open kind; otherwise the
root's children render in order.  The fuel `1 + branchListSize cs`
strictly dominates the tree's nesting depth. -/
def treeRender (st : TreeState) (data : JSVal) : Except JErr Str :=
  match st with
  | [] => .error (.typeError "Cannot read properties of undefined".data)
  | f :: _ =>
    match f with
    | .base cs => renderListB (1 + branchListSize cs) cs data
    | _ => .error (.syntaxError ("Unclosed ".data ++ f.kindName ++ " branch".data))

/-- Compile and render: `template(source).render(data)`. -/
def templateRender (source : Str) (data : JSVal) : Except JErr Str :=
  match templateCompile source with
  | .error e => .error e
  | .ok st => treeRender st data


/-- The spec example source of C1: an `if` with a `>` comparison. -/
def srcIfBig : Str := "$\x7b#if count > 5\x7dbig$\x7b#end if\x7d".data

/-- Context with `count` = 10. -/
def ctxCount10 : JSVal := .obj [("count".data, .num 10)]

/-- Context with `count` = 3. -/
def ctxCount3 : JSVal := .obj [("count".data, .num 3)]

/-- The malformed example source of C3: an `if` never closed. -/
def srcNoClose : Str := "$\x7b#if x\x7dno close".data

/-- The builder state srcNoClose compiles to: the `if` frame still open on
top of the root. -/
def stNoClose : TreeState :=
  [Frame.ifF false "x".data "truthy".data [] [Branch.text "no close".data],
   Frame.base [Branch.text []]]

/-- An `each` over `items` binding `item` (the final content character
sits against the close marker, whose fragment absorbs it). -/
def srcEachItems : Str :=
  "$\x7b#each items as item\x7d$\x7bitem\x7d!x$\x7b#end each\x7d".data

/-- Context with `items` = ["A", "B"]. -/
def ctxItemsAB : JSVal := .obj [("items".data, .arr [.str "A".data, .str "B".data])]

/-- Context with `items` = []. -/
def ctxItemsEmpty : JSVal := .obj [("items".data, .arr [])]

/-- An `each` over a collection name missing from the context. -/
def srcEachMissing : Str := "$\x7b#each xs as x\x7dab$\x7b#end each\x7d".data

/-- The builder state srcEachMissing compiles to. -/
def stEachMissing : TreeState :=
  [Frame.base [Branch.text [],
    Branch.each "xs".data none "x".data [Branch.text ['a']]]]

/-- An `if` whose operator token `=>` is outside the supported set. -/
def srcIfArrow : Str := "$\x7b#if a => b\x7dxy$\x7b#end if\x7d".data

/-- The builder state srcIfArrow compiles to: the marker pattern accepts
`=>` (both characters lie in `[<>!=]`), so compilation succeeds. -/
def stIfArrow : TreeState :=
  [Frame.base [Branch.text [],
    Branch.iff false "a".data "=>".data "b".data [Branch.text ['x']]]]

/-- An `each` whose value binding shadows an outer `x`, followed by a
placeholder reading the outer `x` again. -/
def srcEachShadow : Str :=
  "$\x7b#each xs as x\x7d$\x7bx\x7d,$\x7b#end each\x7d$\x7bx\x7d".data

/-- Context with `xs` = [1, 2] and an outer `x` = "orig". -/
def ctxShadow : JSVal :=
  .obj [("xs".data, .arr [.num 1, .num 2]), ("x".data, .str "orig".data)]

/-- The escaped-placeholder example of C8. -/
def srcEscPlaceholder : Str := "\x5c$\x7bx\x7d".data

/-- An escaped `if` marker followed by text (unescaped it would leave the
branch unclosed). -/
def srcEscMarker : Str := "\x5c$\x7b#if x\x7dab".data

/-- The C10 example: an `each` whose collection name is a dotted path. -/
def srcEachDotted : Str :=
  "$\x7b#each items.list as item\x7dx$\x7b#end each\x7d".data

/-- The bare dotted `each` marker of C10. -/
def eachDottedMarker : Str := "$\x7b#each items.list as item\x7d".data

/-- The bare `=>` marker of C6. -/
def ifArrowMarker : Str := "$\x7b#if a => b\x7d".data

/-- A context whose entry `a` nests an object with key `b`. -/
def ctxNestedAB : JSVal := .obj [("a".data, .obj [("b".data, .num 7)])]

/-- A context with a literal top-level key spelled `a.b`. -/
def ctxLiteralDotKey : JSVal := .obj [("a.b".data, .arr [.num 1])]

/-- A successful `markerAt` splits its input exactly, with a nonempty
match. -/
theorem markerAt_spec {s m r : Str} (h : markerAt s = some (m, r)) :
    s = m ++ r ∧ m ≠ [] := by
  cases s with
  | nil => simp [markerAt] at h
  | cons a s1 =>
    cases s1 with
    | nil => simp [markerAt] at h
    | cons b s2 =>
      cases s2 with
      | nil => simp [markerAt] at h
      | cons c t =>
        simp only [markerAt] at h
        split at h
        · split at h
          · rename_i r0 r1 hdw
            split at h
            · rename_i hok
              injection h with h1
              injection h1 with hm hr
              subst hm
              subst hr
              have hr0 : r0 = chBraceR := by
                simp only [Bool.and_eq_true, decide_eq_true_eq] at hok
                exact hok.1
              subst hr0
              refine ⟨?_, by simp⟩
              have ht : t.takeWhile (fun d => !(d = chBraceR)) ++
                  t.dropWhile (fun d => !(d = chBraceR)) = t :=
                List.takeWhile_append_dropWhile (fun d => !(d = chBraceR)) t
              simp only [List.cons_append, List.append_assoc, List.singleton_append,
                List.nil_append]
              rw [← hdw, ht]
            · exact absurd h (by simp)
          · exact absurd h (by simp)
        · exact absurd h (by simp)


theorem findBranchPartTail_spec :
    ∀ {s p m r : Str}, findBranchPartTail s = some (p, m, r) →
      s = p ++ m ++ r ∧ m ≠ [] := by
  intro s
  induction s with
  | nil => intro p m r h; simp [findBranchPartTail] at h
  | cons c cs ih =>
    intro p m r h
    simp only [findBranchPartTail] at h
    have hmap : ∀ (hm : (findBranchPartTail cs).map
        (fun x => (c :: x.1, x.2.1, x.2.2)) = some (p, m, r)),
        c :: cs = p ++ m ++ r ∧ m ≠ [] := by
      intro hm
      obtain ⟨⟨q, mm, rr⟩, hrec, hf⟩ := Option.map_eq_some'.mp hm
      injection hf with hp h2
      injection h2 with hm2 hr2
      subst hp; subst hm2; subst hr2
      obtain ⟨hs, hne⟩ := ih hrec
      exact ⟨by simp [hs], hne⟩
    split at h
    · split at h
      · rename_i mk rest hmk
        injection h with h1
        injection h1 with hp h2
        injection h2 with hm hr
        subst hp; subst hm; subst hr
        obtain ⟨hs, hne⟩ := markerAt_spec hmk
        exact ⟨by simp [hs], by simp⟩
      · exact hmap h
    · exact hmap h

theorem findBranchPart_spec {s p m r : Str}
    (h : findBranchPart s = some (p, m, r)) : s = p ++ m ++ r ∧ m ≠ [] := by
  simp only [findBranchPart] at h
  split at h
  · rename_i mk rest hmk
    injection h with h1
    injection h1 with hp h2
    injection h2 with hm hr
    subst hp; subst hm; subst hr
    obtain ⟨hs, hne⟩ := markerAt_spec hmk
    exact ⟨by simp [hs], hne⟩
  · exact findBranchPartTail_spec h

theorem tokeniseB_join :
    ∀ (fuel : Nat) (s : Str), s.length < fuel → (tokeniseB fuel s).flatten = s := by
  intro fuel
  induction fuel with
  | zero => intro s h; omega
  | succ n ih =>
    intro s h
    simp only [tokeniseB]
    split
    · rename_i hnil
      simp [hnil]
    · rcases hfb : findBranchPart s with _ | ⟨p, m, r⟩
      · simp
      · obtain ⟨hs, hne⟩ := findBranchPart_spec hfb
        simp only
        split
        · rename_i hm; exact absurd hm hne
        · have hlen : r.length < n := by
            have := congrArg List.length hs
            simp only [List.length_append] at this
            have hm1 : 1 ≤ m.length := by
              cases m with
              | nil => exact absurd rfl hne
              | cons _ _ => simp
            omega
          simp only [List.flatten_cons]
          rw [ih r hlen, hs, List.append_assoc]

/-- `concatM` on a singleton is just the element's render. -/
theorem concatM_singleton {α : Type} (f : α → Except JErr Str) (a : α) :
    concatM f [a] = f a := by
  cases h : f a with
  | error e => simp [concatM, h]
  | ok s => simp [concatM, h]

/-- An error of `concatM` comes from one of the elements. -/
theorem concatM_error {α : Type} (f : α → Except JErr Str) :
    ∀ (l : List α) (e : JErr), concatM f l = .error e → ∃ a ∈ l, f a = .error e := by
  intro l
  induction l with
  | nil => intro e h; simp [concatM] at h
  | cons a l ih =>
    intro e h
    simp only [concatM] at h
    split at h
    · rename_i he
      injection h with h1
      exact ⟨a, List.mem_cons_self a l, h1 ▸ he⟩
    · split at h
      · rename_i s hs he
        injection h with h1
        obtain ⟨b, hb, hfb⟩ := ih _ (h1 ▸ he)
        exact ⟨b, List.mem_cons_of_mem a hb, hfb⟩
      · exact absurd h (by simp)

/-- A `getIdx` failure is a TypeError. -/
theorem getIdx_error {v : JSVal} {k : Str} {e : JErr}
    (h : getIdx v k = .error e) : ∃ msg, e = .typeError msg := by
  cases v <;> simp only [getIdx] at h <;>
    first
    | (injection h with h1; exact ⟨_, h1.symm⟩)
    | simp at h

/-- A `pairF` failure is a TypeError. -/
theorem pairF_error {v : JSVal} {e : JErr}
    (h : pairF v = .error e) : ∃ msg, e = .typeError msg := by
  simp only [pairF] at h
  split at h
  · split at h <;> simp at h
  · split at h <;>
      first
      | (injection h with h1; exact ⟨_, h1.symm⟩)
      | simp at h

/-- A member of a branch list is structurally smaller than the list. -/
theorem branchSize_lt_of_mem :
    ∀ {bs : List Branch} {b : Branch}, b ∈ bs → branchSize b < branchListSize bs := by
  intro bs
  induction bs with
  | nil => intro b h; simp at h
  | cons a l ih =>
    intro b h
    rcases List.mem_cons.mp h with h1 | h2
    · subst h1
      simp only [branchListSize]
      omega
    · have := ih h2
      simp only [branchListSize]
      omega

/-- With fuel at least the structural size of the branch list, every error
a render produces is a TypeError (the fuel cannot run out, and the only
throw sites are the property read and the pair normalization of an `each`
collection). -/
theorem renderListB_error :
    ∀ (fuel : Nat) (bs : List Branch) (d : JSVal) (e : JErr),
      branchListSize bs ≤ fuel → renderListB fuel bs d = .error e →
      ∃ msg, e = .typeError msg := by
  intro fuel
  induction fuel with
  | zero =>
    intro bs d e hsz h
    have : 1 ≤ branchListSize bs := by
      cases bs <;> simp [branchListSize] <;> omega
    omega
  | succ n ih =>
    intro bs d e hsz h
    simp only [renderListB, renderStep] at h
    obtain ⟨b, hb, hfb⟩ := concatM_error _ _ _ h
    have hblt : branchSize b < branchListSize bs := branchSize_lt_of_mem hb
    cases b with
    | text t => simp at hfb
    | iff neg path test value cs =>
      simp only at hfb
      split at hfb
      · have hcs : branchListSize cs ≤ n := by
          simp only [branchSize] at hblt
          omega
        exact ih cs d e hcs hfb
      · exact absurd hfb (by simp)
    | each dk ik iv cs =>
      simp only at hfb
      split at hfb
      · rename_i he
        injection hfb with h1
        exact getIdx_error (h1 ▸ he)
      · rename_i coll hcoll
        split at hfb
        · rename_i he
          injection hfb with h1
          exact pairF_error (h1 ▸ he)
        · rename_i prs hprs
          obtain ⟨pr, hpr, hfpr⟩ := concatM_error _ _ _ hfb
          have hcs : branchListSize cs ≤ n := by
            simp only [branchSize] at hblt
            omega
          exact ih cs _ e hcs hfpr

/-- C4: concatenating, in order, all fragments the tokenizer produces for
any input string with the control-marker pattern reproduces the input
exactly — no text is dropped or duplicated. -/
theorem c4_tokenise_roundtrip : ∀ s : Str, (tokenise s).flatten = s :=
  fun s => tokeniseB_join (s.length + 1) s (Nat.lt_succ_self _)

/-- C3: when compilation leaves a control branch open (the builder's
pointer rests on a non-base frame), rendering raises the unclosed-branch
SyntaxError naming the open kind, for every data context; in particular
the unclosed sample source always errors and never renders its text. -/
theorem c3_unclosed_branch_raises :
    (∀ (source : Str) (st : TreeState) (d : JSVal) (f : Frame) (rest : List Frame),
       templateCompile source = .ok st → st = f :: rest →
       f.kindName ≠ "base".data →
       treeRender st d =
         .error (.syntaxError ("Unclosed ".data ++ f.kindName ++ " branch".data)))
    ∧ (∀ d : JSVal, templateRender srcNoClose d =
         .error (.syntaxError "Unclosed if branch".data)) := by
  constructor
  · intro source st d f rest hcomp hst hkind
    subst hst
    cases f with
    | base cs => exact absurd rfl hkind
    | ifF n p t v cs => rfl
    | eachF dk ik iv cs => rfl
  · intro d; rfl

/-- Witness for C3 at the sample source: it compiles to a state whose top
frame is the open `if`, and rendering it raises the unclosed error. -/
theorem c3_unclosed_branch_raises_witness :
    templateCompile srcNoClose = .ok stNoClose ∧
    treeRender stNoClose (.obj []) =
      .error (.syntaxError ("Unclosed ".data ++
        (Frame.ifF false "x".data "truthy".data [] [Branch.text "no close".data]).kindName ++
        " branch".data)) :=
  ⟨rfl, c3_unclosed_branch_raises.1 srcNoClose stNoClose (.obj []) _ _ rfl rfl (by decide)⟩

/-- C1: an `if` branch renders by resolving its data path, negating on
`!`, decoding the operand (a deferred operand resolves against the same
context), applying the test selected by the operator (truthiness when
there is none), and produces its children's concatenation or the empty
string — but the spec example renders "bi", not "big": the tokenizer folds
the character before each control marker into the marker fragment and the
tree builder then discards it with the fragment. -/
theorem c1_if_render_and_example :
    (∀ (fuel : Nat) (neg : Bool) (path test value : Str) (cs : List Branch) (d : JSVal),
       renderListB (fuel + 1) [Branch.iff neg path test value cs] d =
         (if ifShould neg path test value d then renderListB fuel cs d else .ok []))
    ∧ (∀ (neg : Bool) (path test value : Str) (d : JSVal),
       ifShould neg path test value d =
         (match testsLookup test with
          | some f => f (if neg then JSVal.bool (!(truthy (access d path))) else access d path)
                        (match decode value with
                         | .val v => v
                         | .deferred p => access d p)
          | none => true))
    ∧ templateRender srcIfBig ctxCount10 = .ok "bi".data
    ∧ templateRender srcIfBig ctxCount3 = .ok [] := by
  refine ⟨?_, ?_, rfl, rfl⟩
  · intro fuel neg path test value cs d
    exact concatM_singleton _ _
  · intro neg path test value d
    rfl

/-- C10: an `each` marker with a dotted collection name fails the marker
pattern, so compiling it dereferences a null match and throws a TypeError;
and at render time the collection is fetched by raw single-key indexing of
the context (not through the path resolver), so only a literal top-level
entry — even one spelled `a.b` — can be iterated, while a nested `a.b`
path is invisible to it (though visible to `access`). -/
theorem c10_each_word_only_and_direct_indexing :
    templateCompile srcEachDotted = .error (.typeError "Cannot read properties of null".data)
    ∧ eachScan eachDottedMarker = none
    ∧ (∀ (fuel : Nat) (dk : Str) (ik : Option Str) (iv : Str) (cs : List Branch) (d : JSVal),
        renderListB (fuel + 1) [Branch.each dk ik iv cs] d =
          (match getIdx d dk with
           | .error e => .error e
           | .ok coll =>
             match pairF coll with
             | .error e => .error e
             | .ok prs =>
               concatM (fun pr => renderListB fuel cs (bindPair (shallowCopy d) ik iv pr)) prs))
    ∧ getIdx ctxNestedAB "a.b".data = .ok .undef
    ∧ access ctxNestedAB "a.b".data = .num 7
    ∧ getIdx ctxLiteralDotKey "a.b".data = .ok (.arr [.num 1]) := by
  refine ⟨rfl, rfl, ?_, rfl, rfl, rfl⟩
  intro fuel dk ik iv cs d
  exact concatM_singleton _ _

/-- C8: a backslash immediately before a placeholder or a control marker
suppresses processing and emits the marker text with the backslash
dropped: generally, the builder turns an escaped marker fragment into
literal text, the supplant handler emits an escaped placeholder verbatim
without its backslash, and the two sample sources render accordingly for
every data context. -/
theorem c8_backslash_escape :
    (∀ d : JSVal, templateRender srcEscPlaceholder d = .ok "$\x7bx\x7d".data)
    ∧ (∀ d : JSVal, templateRender srcEscMarker d = .ok "$\x7b#if x\x7dab".data)
    ∧ (∀ (st : TreeState) (part ctxt kind content whole : Str),
        processBranchMatch part = some (ctxt, kind, content, whole) →
        ctxt = [chBackslash] →
        processPart st part = addBranchTo st (.text part))
    ∧ (∀ (fuel : Nat) (s : Str) (d : JSVal) (pre inner rest : Str),
        findPlaceholder s = some (pre, some chBackslash, inner, rest) →
        supplantB (fuel + 1) s d =
          pre ++ ('$' :: chBraceL :: (inner ++ [chBraceR])) ++ supplantB fuel rest d) := by
  refine ⟨fun d => rfl, fun d => rfl, ?_, ?_⟩
  · intro st part ctxt kind content whole hmatch hctxt
    subst hctxt
    simp only [processPart, hmatch]
    simp
  · intro fuel s d pre inner rest hfind
    simp only [supplantB, hfind]
    simp

/-- The escaped `if` fragment the tokenizer produces for srcEscMarker. -/
def srcEscMarkerFragment : Str := "\x5c$\x7b#if x\x7d".data

/-- Witness for C8's conditional conjuncts: the escaped `if` fragment is
appended as text, and the escaped placeholder is emitted verbatim. -/
theorem c8_backslash_escape_witness :
    processPart [Frame.base []] srcEscMarkerFragment =
      addBranchTo [Frame.base []] (.text srcEscMarkerFragment)
    ∧ supplantB 1 srcEscPlaceholder (.obj []) =
        [] ++ ('$' :: chBraceL :: ("x".data ++ [chBraceR])) ++ supplantB 0 [] (.obj []) :=
  ⟨c8_backslash_escape.2.2.1 [Frame.base []] srcEscMarkerFragment
      [chBackslash] "if".data "x".data srcEscMarkerFragment rfl rfl,
   c8_backslash_escape.2.2.2 0 srcEscPlaceholder (.obj []) [] "x".data [] rfl⟩

/-- C2: an `each` branch normalizes its named collection into ordered
(key, value) pairs — arrays by ascending numeric index, non-array-like
values by their own keys in enumeration order — and concatenates, in pair
order, its children rendered against the copied context carrying the pair
bindings; over an empty collection it contributes exactly the empty
string, whatever its children; the sample source renders "A!B!" and "". -/
theorem c2_each_render :
    (∀ (fuel : Nat) (dk : Str) (ik : Option Str) (iv : Str) (cs : List Branch) (d : JSVal),
       renderListB (fuel + 1) [Branch.each dk ik iv cs] d =
         (match getIdx d dk with
          | .error e => .error e
          | .ok coll =>
            match pairF coll with
            | .error e => .error e
            | .ok prs =>
              concatM (fun pr => renderListB fuel cs (bindPair (shallowCopy d) ik iv pr)) prs))
    ∧ (∀ (fuel : Nat) (dk : Str) (ik : Option Str) (iv : Str) (cs : List Branch)
         (d coll : JSVal),
       getIdx d dk = .ok coll → pairF coll = .ok [] →
       renderListB (fuel + 1) [Branch.each dk ik iv cs] d = .ok [])
    ∧ (∀ xs : List JSVal,
       pairF (.arr xs) = .ok (xs.enum.map (fun ix => (JSVal.num (ix.1 : Int), ix.2))))
    ∧ (∀ fields : List (Str × JSVal), isArrayLike (.obj fields) = false →
       pairF (.obj fields) = .ok (objectPairs fields))
    ∧ templateRender srcEachItems ctxItemsAB = .ok "A!B!".data
    ∧ templateRender srcEachItems ctxItemsEmpty = .ok [] := by
  have hone : ∀ (fuel : Nat) (dk : Str) (ik : Option Str) (iv : Str) (cs : List Branch)
      (d : JSVal),
      renderListB (fuel + 1) [Branch.each dk ik iv cs] d =
        (match getIdx d dk with
         | .error e => .error e
         | .ok coll =>
           match pairF coll with
           | .error e => .error e
           | .ok prs =>
             concatM (fun pr => renderListB fuel cs (bindPair (shallowCopy d) ik iv pr)) prs) :=
    fun fuel dk ik iv cs d => concatM_singleton _ _
  refine ⟨hone, ?_, fun xs => rfl, ?_, rfl, rfl⟩
  · intro fuel dk ik iv cs d coll hidx hpair
    rw [hone, hidx]
    simp only
    rw [hpair]
    simp [concatM]
  · intro fields h
    simp [pairF, h]

/-- Witness for C2's conditional conjuncts: an `each` over an empty array
contributes the empty string, and a plain object normalizes to its keyed
pairs. -/
theorem c2_each_render_witness :
    renderListB 1 [Branch.each "xs".data none "x".data []]
      (.obj [("xs".data, .arr [])]) = .ok []
    ∧ pairF (.obj [("a".data, .num 1)]) = .ok (objectPairs [("a".data, .num 1)]) :=
  ⟨c2_each_render.2.1 0 "xs".data none "x".data [] (.obj [("xs".data, .arr [])])
      (.arr []) rfl rfl,
   c2_each_render.2.2.2.1 [("a".data, .num 1)] rfl⟩

/-- C9: rendering never mutates the tree (branches are immutable values)
or the caller's context: sibling branches after an `each` render against
the same unchanged context, the `each` writes its bindings only into the
shallow copy it derives per render, and in the sample template an outer
`x` shadowed inside the loop reads back its original value afterwards
("12orig"); a second render of the same state against an equal context is
the same computation, hence equal output. -/
theorem c9_render_leaves_context_intact :
    (∀ (fuel : Nat) (b : Branch) (bs : List Branch) (d : JSVal),
       renderListB (fuel + 1) (b :: bs) d =
         (match renderListB (fuel + 1) [b] d with
          | .error e => .error e
          | .ok s =>
            match renderListB (fuel + 1) bs d with
            | .error e => .error e
            | .ok t => .ok (s ++ t)))
    ∧ (∀ (fuel : Nat) (dk : Str) (ik : Option Str) (iv : Str) (cs : List Branch)
         (d coll : JSVal) (prs : List (JSVal × JSVal)),
       getIdx d dk = .ok coll → pairF coll = .ok prs →
       renderListB (fuel + 1) [Branch.each dk ik iv cs] d =
         concatM (fun pr => renderListB fuel cs (bindPair (shallowCopy d) ik iv pr)) prs)
    ∧ templateRender srcEachShadow ctxShadow = .ok "12orig".data := by
  refine ⟨?_, ?_, rfl⟩
  · intro fuel b bs d
    have h1 : renderListB (fuel + 1) [b] d =
        renderStep (fun cs x => renderListB fuel cs x) [b] d := rfl
    rw [h1, renderStep, concatM_singleton]
    rfl
  · intro fuel dk ik iv cs d coll prs hidx hpair
    have h1 := concatM_singleton
      (fun b =>
        match b with
        | Branch.text t => .ok (supplant t d)
        | Branch.iff neg path test value cs =>
          if ifShould neg path test value d then renderListB fuel cs d else .ok []
        | Branch.each dk ik iv cs =>
          match getIdx d dk with
          | .error e => .error e
          | .ok coll =>
            match pairF coll with
            | .error e => .error e
            | .ok prs =>
              concatM (fun pr => renderListB fuel cs (bindPair (shallowCopy d) ik iv pr)) prs)
      (Branch.each dk ik iv cs)
    rw [show renderListB (fuel + 1) [Branch.each dk ik iv cs] d =
        (match getIdx d dk with
         | .error e => .error e
         | .ok coll =>
           match pairF coll with
           | .error e => .error e
           | .ok prs =>
             concatM (fun pr => renderListB fuel cs (bindPair (shallowCopy d) ik iv pr)) prs)
      from h1]
    rw [hidx]
    simp only
    rw [hpair]

/-- Witness for C9's conditional conjunct: the per-pair contexts of a
one-element `each` are built on the shallow copy of the caller's
context. -/
theorem c9_render_leaves_context_intact_witness :
    renderListB 1 [Branch.each "xs".data none "x".data []]
      (.obj [("xs".data, .arr [.num 5])]) =
      concatM (fun pr => renderListB 0 []
        (bindPair (shallowCopy (.obj [("xs".data, .arr [.num 5])])) none "x".data pr))
        [(.num 0, .num 5)] :=
  c9_render_leaves_context_intact.2.1 0 "xs".data none "x".data []
    (.obj [("xs".data, .arr [.num 5])]) (.arr [.num 5]) [(.num 0, .num 5)] rfl rfl

/-- Counterexample to C6: the `=>` marker compiles without any error (to a
branch whose test name is `=>`), and renders its children. -/
theorem c6_bad_operator_counterexample :
    templateCompile srcIfArrow = .ok stIfArrow ∧
    templateRender srcIfArrow (.obj []) = .ok ['x'] := ⟨rfl, rfl⟩

/-- C6 (amended): an `if` operator token built from `[<>!=]` characters
but outside the supported set is accepted by the marker pattern at compile
time; its test name misses the tests table, so the branch ignores the
comparison and always renders its children. -/
theorem c6_bad_operator_renders_unconditionally :
    (∀ (fuel : Nat) (neg : Bool) (path value : Str) (cs : List Branch) (d : JSVal)
       (test : Str), testsLookup test = none →
       renderListB (fuel + 1) [Branch.iff neg path test value cs] d =
         renderListB fuel cs d)
    ∧ testsLookup "=>".data = none
    ∧ testsLookup "<<".data = none
    ∧ ifScan ifArrowMarker = some (false, "a".data, "=>".data, "b".data)
    ∧ templateRender srcIfArrow (.obj []) = .ok ['x'] := by
  refine ⟨?_, rfl, rfl, rfl, rfl⟩
  intro fuel neg path value cs d test h
  have h1 : renderListB (fuel + 1) [Branch.iff neg path test value cs] d =
      (if ifShould neg path test value d then renderListB fuel cs d else .ok []) :=
    concatM_singleton _ _
  rw [h1]
  have h2 : ifShould neg path test value d = true := by
    simp [ifShould, h]
  rw [h2]
  simp

/-- Witness for C6's conditional conjunct at the `=>` operator. -/
theorem c6_bad_operator_witness :
    renderListB 2 [Branch.iff false "a".data "=>".data "b".data [Branch.text "hi".data]]
      (.obj []) = renderListB 1 [Branch.text "hi".data] (.obj []) :=
  c6_bad_operator_renders_unconditionally.1 1 false "a".data "b".data
    [Branch.text "hi".data] (.obj []) "=>".data rfl

/-- Counterexample to C5: a well-formed template whose `each` collection
is missing from the context raises a TypeError at render time (the
`Object.keys` call inside `pair` rejects undefined) — an error outside
the three structural kinds. -/
theorem c5_counterexample_each_missing_collection :
    templateRender srcEachMissing (.obj []) =
      .error (.typeError "Cannot convert undefined or null to object".data) := rfl

/-- C5 (amended): for a well-formed compiled template every render
failure is a TypeError arising from normalizing an each collection that
is null or undefined — never a structural SyntaxError and never an
exception from path resolution (`access` is total; a missing path is
undefined); a placeholder whose resolved value is not stringy is emitted
verbatim, preceded by its untouched context character. -/
theorem c5_well_formed_render_errors_are_type_errors :
    (∀ (cs : List Branch) (rest : List Frame) (d : JSVal) (e : JErr),
       treeRender (Frame.base cs :: rest) d = .error e → ∃ msg, e = .typeError msg)
    ∧ (∀ (fuel : Nat) (s : Str) (d : JSVal) (pre : Str) (pc : Option Char) (inner rest : Str),
        findPlaceholder s = some (pre, pc, inner, rest) →
        pc ≠ some chBackslash →
        numStrValue (access d inner) = none →
        supplantB (fuel + 1) s d =
          pre ++ ((match pc with | some c => ([c] : Str) | none => []) ++
            ('$' :: chBraceL :: (inner ++ [chBraceR]))) ++ supplantB fuel rest d)
    ∧ access (.obj []) "five.one.two".data = .undef := by
  refine ⟨?_, ?_, rfl⟩
  · intro cs rest d e h
    simp only [treeRender] at h
    exact renderListB_error _ cs d e (by omega) h
  · intro fuel s d pre pc inner rest hfind hpc hval
    simp only [supplantB, hfind]
    cases pc with
    | none => simp [hval]
    | some c =>
      have hcne : ([c] : Str) ≠ [chBackslash] := by
        intro hc
        apply hpc
        injection hc with h1
        rw [h1]
      simp [hcne, hval]

/-- Witness for C5's conditional conjuncts: the missing-collection render
error is a TypeError, and a placeholder over a missing path is emitted
verbatim behind its context character. -/
theorem c5_well_formed_render_errors_witness :
    (∃ msg, (JErr.typeError "Cannot convert undefined or null to object".data) =
      JErr.typeError msg)
    ∧ supplantB 1 "a$\x7bq\x7db".data (.obj []) =
        [] ++ ((match (some 'a' : Option Char) with
                | some c => ([c] : Str)
                | none => []) ++
          ('$' :: chBraceL :: ("q".data ++ [chBraceR]))) ++ supplantB 0 "b".data (.obj []) :=
  ⟨c5_well_formed_render_errors_are_type_errors.1
      [Branch.text [], Branch.each "xs".data none "x".data [Branch.text ['a']]] []
      (.obj []) (.typeError "Cannot convert undefined or null to object".data) rfl,
   c5_well_formed_render_errors_are_type_errors.2.1 0 "a$\x7bq\x7db".data (.obj [])
      [] (some 'a') "q".data "b".data rfl (by decide) rfl⟩

/-- A quote character heads none of the decoder's keyword tokens. -/
theorem quoteHeadNotKeyword {q : Char} (hq : isQuoteChar q = true) (l : Str) :
    q :: l ≠ "null".data ∧ q :: l ≠ "undefined".data ∧
    q :: l ≠ "true".data ∧ q :: l ≠ "false".data := by
  simp only [isQuoteChar, Bool.or_eq_true, decide_eq_true_eq] at hq
  rcases hq with (h | h) | h <;> subst h <;>
    refine ⟨?_, ?_, ?_, ?_⟩ <;>
      (intro hcon; injection hcon with h1 _; exact absurd h1 (by decide))

/-- The decoder pattern on a properly wrapped token: the quote group
participates and the body group captures the inner text. -/
theorem quoteParts_wrap {q : Char} {inner : Str} (hq : isQuoteChar q = true)
    (hne : inner ≠ []) : quoteParts (q :: (inner ++ [q])) = (some q, some inner) := by
  have hlen : 2 ≤ (inner ++ [q]).length := by
    have : 1 ≤ inner.length := List.length_pos.mpr hne
    simp only [List.length_append, List.length_singleton]
    omega
  simp [quoteParts, hq, List.getLast?_concat, hlen, List.dropLast_concat, hne]

/-- Counterexample to C7: the bare pair of quotes is a token wrapped in
matching quotes, but it decodes to undefined, not to the empty string —
the body group of the decoder pattern needs at least one character. -/
theorem c7_counterexample_bare_quote_pair :
    decode [chSQuote, chSQuote] = .val .undef ∧
    Decoded.val .undef ≠ Decoded.val (.str []) :=
  ⟨rfl, fun h => by injection h with h1; exact JSVal.noConfusion h1⟩

/-- C7 (amended): the decoder maps the keyword tokens to null, undefined
and the booleans; a token wrapped in matching quotes around at least one
character to the unwrapped inner string; a bare pair of matching quotes to
undefined; quote-stripping is checked before the numeric test before the
path fallback (so the quoted numeral decodes to the string, not the
number); and a non-keyword token whose quote group does not participate
decodes to the parsed number or the deferred path, settled by the numeric
test — each token receiving exactly one interpretation. -/
theorem c7_decode_classification :
    (decode "null".data = .val .null
     ∧ decode "undefined".data = .val .undef
     ∧ decode "true".data = .val (.bool true)
     ∧ decode "false".data = .val (.bool false))
    ∧ (∀ (q : Char) (inner : Str), isQuoteChar q = true → inner ≠ [] →
        decode (q :: (inner ++ [q])) = .val (.str inner))
    ∧ (∀ q : Char, isQuoteChar q = true → decode [q, q] = .val .undef)
    ∧ decode [chDQuote, '5', chDQuote] = .val (.str ['5'])
    ∧ isNumericStr ['5'] = true
    ∧ (∀ v : Str, (quoteParts v).1 = none →
        v ≠ "null".data → v ≠ "undefined".data → v ≠ "true".data → v ≠ "false".data →
        decode v = (if isNumericStr v then .val (.num ((toNumberStr v).getD 0))
                    else .deferred v)) := by
  refine ⟨⟨rfl, rfl, rfl, rfl⟩, ?_, ?_, rfl, rfl, ?_⟩
  · intro q inner hq hne
    obtain ⟨k1, k2, k3, k4⟩ := quoteHeadNotKeyword hq (inner ++ [q])
    simp [decode, k1, k2, k3, k4, quoteParts_wrap hq hne]
  · intro q hq
    simp only [isQuoteChar, Bool.or_eq_true, decide_eq_true_eq] at hq
    rcases hq with (h | h) | h <;> subst h <;> rfl
  · intro v h1 h2 h3 h4 h5
    rcases hv : quoteParts v with ⟨pf, ps⟩
    rw [hv] at h1
    simp only at h1
    subst h1
    simp [decode, h2, h3, h4, h5, hv]

/-- Witness for C7's conditional conjuncts: a backtick-wrapped letter
unwraps, a bare double-quote pair decodes to undefined, and a plain
numeral goes through the numeric test. -/
theorem c7_decode_classification_witness :
    decode (chBQuote :: (['a'] ++ [chBQuote])) = .val (.str ['a'])
    ∧ decode [chDQuote, chDQuote] = .val .undef
    ∧ decode "7".data = (if isNumericStr "7".data then
        Decoded.val (.num ((toNumberStr "7".data).getD 0)) else .deferred "7".data) :=
  ⟨c7_decode_classification.2.1 chBQuote ['a'] rfl (by decide),
   c7_decode_classification.2.2.1 chDQuote rfl,
   c7_decode_classification.2.2.2.2.2 "7".data rfl (by decide) (by decide) (by decide)
     (by decide)⟩
